import Mathlib

/-!
# Verification of the supply-chain ledger (`src/app.py`)

A shallow embedding of the `SupplyChainBlockchain` class: the chain state,
its five operations (`new_block`, `add_transaction`, `create_product`,
`is_chain_valid`, `track_product` / `all_transactions_summary`), the
canonical key-sorted JSON serialization used for hashing
(`json.dumps(block_copy, sort_keys=True)` after `pop("hash")`), and a
byte-exact executable SHA-256 (`hashlib.sha256(...).hexdigest()`).

Modelling notes, fixed once here:
* Python `float` timestamps (`time.time()`) and amounts are modelled as
  naturals supplied by the environment at each call; no claim depends on
  the numeric representation, only on determinism of the serialization.
* Machine integers do not occur: Python integers are unbounded, so `Nat`
  and `Int` are the exact model.
-/

set_option maxRecDepth 8000

namespace SupplyChain

/-! ## SHA-256 (`hashlib.sha256`), executable over byte lists -/

/-- Truncation to 32 bits. -/
def m32 (x : Nat) : Nat := x % 4294967296

/-- 32-bit right rotation. -/
def rotr (k x : Nat) : Nat := m32 ((x >>> k) ||| (x <<< (32 - k)))

/-- Σ₀ of the SHA-256 compression function. -/
def bigSigma0 (x : Nat) : Nat := (rotr 2 x) ^^^ (rotr 13 x) ^^^ (rotr 22 x)

/-- Σ₁ of the SHA-256 compression function. -/
def bigSigma1 (x : Nat) : Nat := (rotr 6 x) ^^^ (rotr 11 x) ^^^ (rotr 25 x)

/-- σ₀ of the SHA-256 message schedule. -/
def smallSigma0 (x : Nat) : Nat := (rotr 7 x) ^^^ (rotr 18 x) ^^^ (x >>> 3)

/-- σ₁ of the SHA-256 message schedule. -/
def smallSigma1 (x : Nat) : Nat := (rotr 17 x) ^^^ (rotr 19 x) ^^^ (x >>> 10)

/-- SHA-256 `Ch(x,y,z)`; 32-bit complement as xor with `2^32 - 1`. -/
def chF (x y z : Nat) : Nat := (x &&& y) ^^^ ((x ^^^ 4294967295) &&& z)

/-- SHA-256 `Maj(x,y,z)`. -/
def majF (x y z : Nat) : Nat := (x &&& y) ^^^ (x &&& z) ^^^ (y &&& z)

/-- The eight 32-bit words of a SHA-256 state. -/
structure Hash8 where
  a : Nat
  b : Nat
  c : Nat
  d : Nat
  e : Nat
  f : Nat
  g : Nat
  h : Nat
deriving DecidableEq, Repr

/-- Largest `r` with `pow r ≤ n`, by bisection under the invariant
`pow lo ≤ n < pow hi`; the fuel bounds the bisection depth. Used only to
derive the SHA-256 constants the way FIPS 180-4 defines them. -/
def rootBelow (pow : Nat → Nat) (n : Nat) : Nat → Nat → Nat → Nat
  | 0, lo, _ => lo
  | f + 1, lo, hi =>
    if hi ≤ lo + 1 then lo
    else
      let mid := (lo + hi) / 2
      if pow mid ≤ n then rootBelow pow n f mid hi
      else rootBelow pow n f lo mid

/-- The first 32 bits of the fractional part of the `pow`-th root of `p`:
shift `p` by `shift` bits, take the integer root, keep the low 32 bits. -/
def fracRootBits (pow : Nat → Nat) (shift : Nat) (p : Nat) : Nat :=
  rootBelow pow (p <<< shift) 130 0 (p <<< shift + 1) % 4294967296

/-- The first 64 primes, the root bases of the SHA-256 constants. -/
def sha256Primes : List Nat :=
  [2, 3, 5, 7, 11, 13, 17, 19, 23, 29, 31, 37, 41, 43, 47, 53,
   59, 61, 67, 71, 73, 79, 83, 89, 97, 101, 103, 107, 109, 113, 127, 131,
   137, 139, 149, 151, 157, 163, 167, 173, 179, 181, 191, 193, 197, 199, 211, 223,
   227, 229, 233, 239, 241, 251, 257, 263, 269, 271, 277, 281, 283, 293, 307, 311]

/-- SHA-256 round constants: the fractional parts of the cube roots of the
first 64 primes, to 32 bits (FIPS 180-4 §4.2.2). The derivation is pinned
by the known-answer test below. -/
def sha256K : List Nat :=
  sha256Primes.map (fracRootBits (fun r => r * r * r) 96)

/-- One word of the SHA-256 initial state: the fractional part of the
square root of a prime, to 32 bits (FIPS 180-4 §5.3.3). -/
def sqrtFrac (p : Nat) : Nat := fracRootBits (fun r => r * r) 64 p

/-- SHA-256 initial state: fractional square roots of the first 8 primes. -/
def sha256Init : Hash8 :=
  ⟨sqrtFrac 2, sqrtFrac 3, sqrtFrac 5, sqrtFrac 7,
   sqrtFrac 11, sqrtFrac 13, sqrtFrac 17, sqrtFrac 19⟩

/-- Extend the 16-word schedule; the accumulator holds the schedule so far,
most recent word first, so `w[i-2]` is entry 1 and `w[i-16]` is entry 15. -/
def extendW : Nat → List Nat → List Nat
  | 0, rws => rws
  | n + 1, rws =>
    extendW n
      (m32 (smallSigma1 (rws.getD 1 0) + rws.getD 6 0 +
            smallSigma0 (rws.getD 14 0) + rws.getD 15 0) :: rws)

/-- One SHA-256 compression round; `kw` pairs the round constant with the
scheduled word. -/
def sha256Round (s : Hash8) (kw : Nat × Nat) : Hash8 :=
  let t1 := m32 (s.h + bigSigma1 s.e + chF s.e s.f s.g + kw.1 + kw.2)
  let t2 := m32 (bigSigma0 s.a + majF s.a s.b s.c)
  ⟨m32 (t1 + t2), s.a, s.b, s.c, m32 (s.d + t1), s.e, s.f, s.g⟩

/-- Split a 64-byte chunk into its 16 big-endian 32-bit words; the fuel is
the word count. -/
def beWords : Nat → List Nat → List Nat
  | 0, _ => []
  | n + 1, b0 :: b1 :: b2 :: b3 :: rest =>
    (((b0 * 256 + b1) * 256 + b2) * 256 + b3) :: beWords n rest
  | _ + 1, _ => []

/-- Compress one 64-byte chunk into the running state. -/
def sha256Compress (s : Hash8) (chunk : List Nat) : Hash8 :=
  let ws := (extendW 48 (beWords 16 chunk).reverse).reverse
  let t := (sha256K.zip ws).foldl sha256Round s
  ⟨m32 (s.a + t.a), m32 (s.b + t.b), m32 (s.c + t.c), m32 (s.d + t.d),
   m32 (s.e + t.e), m32 (s.f + t.f), m32 (s.g + t.g), m32 (s.h + t.h)⟩

/-- A number as 8 big-endian bytes (the 64-bit message length field). -/
def be8Bytes (n : Nat) : List Nat :=
  [n >>> 56 &&& 255, n >>> 48 &&& 255, n >>> 40 &&& 255, n >>> 32 &&& 255,
   n >>> 24 &&& 255, n >>> 16 &&& 255, n >>> 8 &&& 255, n &&& 255]

/-- SHA-256 padding: `0x80`, zeros to 56 mod 64, then the bit length. -/
def padMsg (msg : List Nat) : List Nat :=
  msg ++ 128 :: List.replicate ((119 - msg.length % 64) % 64) 0 ++
    be8Bytes (8 * msg.length)

/-- Split a padded message into 64-byte chunks; the fuel bounds the chunk
count by the byte count. -/
def chunks64 : Nat → List Nat → List (List Nat)
  | 0, _ => []
  | _ + 1, [] => []
  | n + 1, l => l.take 64 :: chunks64 n (l.drop 64)

/-- The SHA-256 state after absorbing a whole byte message. -/
def sha256Words (msg : List Nat) : Hash8 :=
  (chunks64 (padMsg msg).length (padMsg msg)).foldl sha256Compress sha256Init

/-- Lower-case hex digit (all call sites pass values below 16). -/
def hexDigit : Nat → Char
  | 0 => '0'
  | 1 => '1'
  | 2 => '2'
  | 3 => '3'
  | 4 => '4'
  | 5 => '5'
  | 6 => '6'
  | 7 => '7'
  | 8 => '8'
  | 9 => '9'
  | 10 => 'a'
  | 11 => 'b'
  | 12 => 'c'
  | 13 => 'd'
  | 14 => 'e'
  | _ => 'f'

/-- A 32-bit word as exactly 8 lower-case hex characters. -/
def wordHex (w : Nat) : String :=
  ⟨[hexDigit (w / 268435456 % 16), hexDigit (w / 16777216 % 16),
    hexDigit (w / 1048576 % 16), hexDigit (w / 65536 % 16),
    hexDigit (w / 4096 % 16), hexDigit (w / 256 % 16),
    hexDigit (w / 16 % 16), hexDigit (w % 16)]⟩

/-- `hashlib.sha256(bytes).hexdigest()`. -/
def sha256HexBytes (msg : List Nat) : String :=
  let s := sha256Words msg
  wordHex s.a ++ wordHex s.b ++ wordHex s.c ++ wordHex s.d ++
    wordHex s.e ++ wordHex s.f ++ wordHex s.g ++ wordHex s.h

/-- UTF-8 encoding of one character (`str.encode()`), as byte values. -/
def utf8Char (c : Char) : List Nat :=
  let n := c.toNat
  if n < 128 then [n]
  else if n < 2048 then [192 ||| (n >>> 6), 128 ||| (n &&& 63)]
  else if n < 65536 then
    [224 ||| (n >>> 12), 128 ||| ((n >>> 6) &&& 63), 128 ||| (n &&& 63)]
  else
    [240 ||| (n >>> 18), 128 ||| ((n >>> 12) &&& 63),
     128 ||| ((n >>> 6) &&& 63), 128 ||| (n &&& 63)]

/-- UTF-8 bytes of a string (`s.encode()`). -/
def utf8Str (s : String) : List Nat := (s.data.map utf8Char).flatten

/-- `hashlib.sha256(s.encode()).hexdigest()`. -/
def sha256Text (s : String) : String := sha256HexBytes (utf8Str s)

/-! ## Canonical serialization (`json.dumps(..., sort_keys=True)`)

`json.dumps` with its default arguments: item separator `", "`, key
separator `": "`, `ensure_ascii=True` (characters outside `0x20`–`0x7e`
become `\uXXXX` escapes, astral characters become surrogate pairs), and
`sort_keys=True` sorts every object's keys, recursively. -/

/-- JSON escape of one character, as `json.dumps` emits it: the named
escapes for `"`/`\`/control characters that have one, `\uXXXX` for other
characters outside `0x20`–`0x7e`, the raw character otherwise. -/
def escChar (c : Char) : List Char :=
  let n := c.toNat
  let uni4 : Nat → List Char := fun m =>
    ['\\', 'u', hexDigit (m / 4096 % 16), hexDigit (m / 256 % 16),
     hexDigit (m / 16 % 16), hexDigit (m % 16)]
  if c = '"' then ['\\', '"']
  else if c = '\\' then ['\\', '\\']
  else if n = 10 then ['\\', 'n']
  else if n = 13 then ['\\', 'r']
  else if n = 9 then ['\\', 't']
  else if n = 8 then ['\\', 'b']
  else if n = 12 then ['\\', 'f']
  else if n < 32 ∨ n > 126 then
    if n < 65536 then uni4 n
    else uni4 (55296 + ((n - 65536) >>> 10)) ++ uni4 (56320 + ((n - 65536) &&& 1023))
  else [c]

/-- A JSON string literal: quote, escaped characters, quote. -/
def pyStr (s : String) : String := ⟨'"' :: (s.data.map escChar).flatten ++ ['"']⟩

/-- Python's string `<`: lexicographic comparison of code points, a
proper prefix counting as smaller. -/
def charListLt : List Char → List Char → Bool
  | [], [] => false
  | [], _ :: _ => true
  | _ :: _, [] => false
  | a :: as, b :: bs =>
    if a.toNat < b.toNat then true
    else if b.toNat < a.toNat then false
    else charListLt as bs

/-- Python's string `<=` on strings, as the complement of `<`. -/
def strLe (s t : String) : Bool := ! charListLt t.data s.data

/-- Sort an association list by key, ascending (`sort_keys=True`; Python
compares strings by code points, which is `charListLt`). Dictionary keys
are unique, so stability never matters on the inputs that occur. -/
def sortByKey {α : Type} (d : List (String × α)) : List (String × α) :=
  List.insertionSort (fun p q => strLe p.1 q.1) d

/-- Serialize an object from an association list: sort the keys, render
each `"key": value` pair, join with `", "` inside braces. -/
def renderObjWith {α : Type} (render : α → String) (d : List (String × α)) : String :=
  "\x7b" ++
    String.intercalate ", "
      ((sortByKey d).map (fun kv => pyStr kv.1 ++ ": " ++ render kv.2)) ++
    "\x7d"

/-- The value types that occur in a transaction dictionary. Python floats
(`amount`, `timestamp`) are modelled as naturals (see the header note). -/
inductive PVal where
  | pnat : Nat → PVal
  | pstr : String → PVal
deriving DecidableEq, Repr

/-- Render a transaction value as `json.dumps` renders it. -/
def renderPVal : PVal → String
  | .pnat n => Nat.repr n
  | .pstr s => pyStr s

/-! ## Data model of `SupplyChainBlockchain` -/

/-- One pending/committed transaction, the dictionary built by
`add_transaction` (app.py:36–47). -/
structure Tx where
  product_id : Nat
  actor : String
  location : String
  action : String
  amount : Nat
  batch : String
  transport : String
  notes : String
  receiver : String
  timestamp : Nat
deriving DecidableEq, Repr

/-- The transaction dictionary in its Python insertion order
(app.py:36–47); serialization sorts the keys. -/
def txDict (t : Tx) : List (String × PVal) :=
  [("product_id", .pnat t.product_id), ("actor", .pstr t.actor),
   ("location", .pstr t.location), ("action", .pstr t.action),
   ("amount", .pnat t.amount), ("batch", .pstr t.batch),
   ("transport", .pstr t.transport), ("notes", .pstr t.notes),
   ("receiver", .pstr t.receiver), ("timestamp", .pnat t.timestamp)]

/-- `json.dumps` of one transaction dictionary (keys sorted recursively). -/
def renderTx (t : Tx) : String := renderObjWith renderPVal (txDict t)

/-- The value types that occur in a block dictionary. -/
inductive BVal where
  | bnat : Nat → BVal
  | bint : Int → BVal
  | bstr : String → BVal
  | btxs : List Tx → BVal
deriving DecidableEq

/-- Render a block value as `json.dumps` renders it. -/
def renderBVal : BVal → String
  | .bnat n => Nat.repr n
  | .bint i => toString i
  | .bstr s => pyStr s
  | .btxs l => "[" ++ String.intercalate ", " (l.map renderTx) ++ "]"

/-- A block's fields other than its own stored hash — exactly the
dictionary built at app.py:22–28, before `block["hash"]` is set. The hash
type is a parameter so the tamper-detection analysis can run over any
digest; the program instantiates it at `String`. -/
structure BContent (H : Type) where
  index : Nat
  timestamp : Nat
  transactions : List Tx
  proof : Int
  previous_hash : H
deriving DecidableEq

/-- A committed block: its content plus its stored `"hash"` field. -/
structure Block (H : Type) where
  content : BContent H
  hash : H
deriving DecidableEq

/-- The block dictionary without its `"hash"` key, in Python insertion
order (app.py:22–28). -/
def contentDict (c : BContent String) : List (String × BVal) :=
  [("index", .bnat c.index), ("timestamp", .bnat c.timestamp),
   ("transactions", .btxs c.transactions), ("proof", .bint c.proof),
   ("previous_hash", .bstr c.previous_hash)]

/-- The full block dictionary, `"hash"` key last (set at app.py:30). -/
def blockDict (b : Block String) : List (String × BVal) :=
  contentDict b.content ++ [("hash", .bstr b.hash)]

/-- `SupplyChainBlockchain.hash` (app.py:55–60) on a raw dictionary:
copy, `pop("hash", None)`, `json.dumps(..., sort_keys=True).encode()`,
`hashlib.sha256(...).hexdigest()`. -/
def pyDictHash (d : List (String × BVal)) : String :=
  sha256Text (renderObjWith renderBVal (d.filter (fun kv => kv.1 != "hash")))

/-- `self.hash(block)` on a full block (the dictionary carries `"hash"`,
which `pop` removes). -/
def hashBlock (b : Block String) : String := pyDictHash (blockDict b)

/-- `self.hash(block)` at app.py:30, where the dictionary has no `"hash"`
key yet (`pop` is a no-op there). -/
def hashContent (c : BContent String) : String := pyDictHash (contentDict c)

/-- The mutable state of a `SupplyChainBlockchain` instance (app.py:14–17):
the chain, the pending pool, and the product counter. -/
structure SCState where
  chain : List (Block String)
  pending_transactions : List Tx
  product_counter : Nat
deriving DecidableEq

/-- `self.hash(self.chain[-1])`, the recomputed digest of the last block
(app.py:27). Python raises `IndexError` on an empty chain; every call site
has a non-empty chain, so the `none` branch is unreachable. -/
def lastHashD (s : SCState) : String :=
  match s.chain.getLast? with
  | some b => hashBlock b
  | none => ""

/-- `previous_hash or self.hash(self.chain[-1])` (app.py:27): Python's
`or` takes the recomputed digest when the argument is falsy (`None` or the
empty string). -/
def prevHashArg (s : SCState) : Option String → String
  | some p => if p = "" then lastHashD s else p
  | none => lastHashD s

/-- `new_block` (app.py:20–32): snapshot the pending pool (`tx.copy()` —
value semantics in this embedding), build the block, clear the pool,
compute and store the hash, append, and return the block. `ts` is the
environment's `time.time()` value. -/
def new_block (s : SCState) (proof : Int) (ts : Nat)
    (previous_hash : Option String) : Block String × SCState :=
  let block_transactions := s.pending_transactions.map (fun tx => tx)
  let c : BContent String :=
    ⟨s.chain.length + 1, ts, block_transactions, proof, prevHashArg s previous_hash⟩
  let b : Block String := ⟨c, hashContent c⟩
  (b, ⟨s.chain ++ [b], [], s.product_counter⟩)

/-- `add_transaction` (app.py:34–49): append one transaction dictionary to
the pending pool and return `product_id`. `ts` is the environment's
`time.time()` value, captured at submission time. -/
def add_transaction (s : SCState) (product_id : Nat)
    (actor location action : String) (amount : Nat)
    (batch transport notes receiver : String) (ts : Nat) : Nat × SCState :=
  let transaction : Tx :=
    ⟨product_id, actor, location, action, amount, batch, transport, notes, receiver, ts⟩
  (product_id, ⟨s.chain, s.pending_transactions ++ [transaction], s.product_counter⟩)

/-- `create_product` (app.py:51–53). -/
def create_product (s : SCState) : Nat × SCState :=
  (s.product_counter + 1, ⟨s.chain, s.pending_transactions, s.product_counter + 1⟩)

/-- `__init__` (app.py:14–18): empty chain, empty pool, zero counter, then
`self.new_block(proof=100, previous_hash="1")`. -/
def initState (ts0 : Nat) : SCState :=
  (new_block ⟨[], [], 0⟩ 100 ts0 (some "1")).2

/-- `is_chain_valid` (app.py:66–74), generic in how a block's hash is
recomputed: for `i` in `range(1, len(chain))`, compare
`chain[i].previous_hash` with `chain[i-1].hash` and `chain[i].hash` with
the recomputed digest, returning `False` at the first mismatch. The
program instantiates `g` at `hashBlock` (`self.hash(curr)`). -/
def chainOkWith {H : Type} [DecidableEq H] (g : Block H → H) :
    List (Block H) → Bool
  | [] => true
  | [_] => true
  | prev :: curr :: rest =>
    if curr.content.previous_hash ≠ prev.hash then false
    else if curr.hash ≠ g curr then false
    else chainOkWith g (curr :: rest)

/-- `is_chain_valid` (app.py:66–74) of the program's state. -/
def is_chain_valid (s : SCState) : Bool := chainOkWith hashBlock s.chain

/-- `is_chain_valid` as a method call: the returned value together with
the state the caller holds afterwards (the method only reads). -/
def is_chain_valid_call (s : SCState) : Bool × SCState :=
  (chainOkWith hashBlock s.chain, s)

/-! ## History reconstruction -/

/-- One row of `track_product`'s result (app.py:81–92). The dictionary
carries the originating block index and every transaction field except
`product_id`. -/
structure HistoryEntry where
  block_index : Nat
  actor : String
  location : String
  action : String
  amount : Nat
  batch : String
  transport : String
  notes : String
  receiver : String
  timestamp : String
deriving DecidableEq, Repr

/-- Modelled from the spec: `time.strftime("%Y-%m-%d %H:%M:%S",
time.localtime(t))` renders the timestamp as a local-time string; the
local timezone is outside the embedding, so the rendering is modelled as
a fixed total function of the timestamp. Both views below share it, and
no claim depends on its output values. -/
def formatTimestamp (t : Nat) : String := Nat.repr t

/-- The projection `track_product` applies to one matching transaction. -/
def mkHistoryEntry (blockIndex : Nat) (tx : Tx) : HistoryEntry :=
  ⟨blockIndex, tx.actor, tx.location, tx.action, tx.amount, tx.batch,
   tx.transport, tx.notes, tx.receiver, formatTimestamp tx.timestamp⟩

/-- `track_product` (app.py:76–93): scan blocks in chain order and
transactions in list order, keep those whose `product_id` matches,
appending projections to the `history` accumulator. -/
def track_product (s : SCState) (product_id : Nat) : List HistoryEntry :=
  s.chain.foldl
    (fun history block =>
      block.content.transactions.foldl
        (fun history tx =>
          if tx.product_id == product_id then
            history ++ [mkHistoryEntry block.content.index tx]
          else history)
        history)
    []

/-- One row of `all_transactions_summary` (app.py:99–111): every
transaction field (including `product_id`) plus the block index. -/
structure SummaryRow where
  productId : Nat
  actor : String
  action : String
  location : String
  amount : Nat
  batch : String
  transport : String
  notes : String
  receiver : String
  timestamp : String
  blockIndex : Nat
deriving DecidableEq, Repr

/-- The projection `all_transactions_summary` applies to one transaction. -/
def mkSummaryRow (blockIndex : Nat) (tx : Tx) : SummaryRow :=
  ⟨tx.product_id, tx.actor, tx.action, tx.location, tx.amount, tx.batch,
   tx.transport, tx.notes, tx.receiver, formatTimestamp tx.timestamp, blockIndex⟩

/-- `all_transactions_summary` (app.py:95–112): the same unfiltered scan;
`pd.DataFrame(rows)` preserves the row order, so the row list is the
model. -/
def all_transactions_summary (s : SCState) : List SummaryRow :=
  s.chain.foldl
    (fun rows block =>
      block.content.transactions.foldl
        (fun rows tx => rows ++ [mkSummaryRow block.content.index tx])
        rows)
    []

/-! ## The caller-visible operation sequences of claim C1 -/

/-- One external call: `add_transaction(...)` or `new_block(proof)` with
the default `previous_hash=None`, each carrying its environment inputs
(timestamps). -/
inductive LedgerOp where
  | addTx (product_id : Nat) (actor location action : String) (amount : Nat)
      (batch transport notes receiver : String) (ts : Nat)
  | commit (proof : Int) (ts : Nat)

/-- Perform one call on the state. -/
def stepOp (s : SCState) : LedgerOp → SCState
  | .addTx pid a l act am b tr n r ts =>
    (add_transaction s pid a l act am b tr n r ts).2
  | .commit proof ts => (new_block s proof ts none).2

/-- Perform a call sequence left to right. -/
def runOps (s : SCState) (ops : List LedgerOp) : SCState := ops.foldl stepOp s

/-- How many of the calls are `new_block` calls. -/
def countCommits (ops : List LedgerOp) : Nat :=
  ops.countP (fun op => match op with | .commit _ _ => true | _ => false)

/-! ## Remaining definitions: invariants, projections, concrete witnesses -/

/-- The genesis block, `(new_block(proof=100, previous_hash="1"))` on the
empty state; `initState ts0` has exactly this block as its chain. -/
def genesisBlock (ts0 : Nat) : Block String :=
  (new_block ⟨[], [], 0⟩ 100 ts0 (some "1")).1

/-- The ledger invariant: every stored hash is the digest of the block's
other fields, and every block's `previous_hash` is the stored hash of its
predecessor. -/
def ChainInv (l : List (Block String)) : Prop :=
  (∀ b ∈ l, b.hash = hashContent b.content) ∧
    List.Chain' (fun p c => c.content.previous_hash = p.hash) l

/-- Rename a summary row into a history entry: drop `Product ID`, keep
every other column. -/
def rowToEntry (r : SummaryRow) : HistoryEntry :=
  ⟨r.blockIndex, r.actor, r.location, r.action, r.amount, r.batch,
   r.transport, r.notes, r.receiver, r.timestamp⟩

/-- A hex character: one of `0-9a-f`. -/
def IsHexDigit (c : Char) : Prop :=
  (48 ≤ c.toNat ∧ c.toNat ≤ 57) ∨ (97 ≤ c.toNat ∧ c.toNat ≤ 102)

instance decIsHexDigit (c : Char) : Decidable (IsHexDigit c) :=
  inferInstanceAs (Decidable (_ ∨ _))

/-- A two-block ledger state built by the program itself: construction
followed by one `new_block(proof=123)` commit. -/
def cexState : SCState := runOps (initState 0) [LedgerOp.commit 123 1]

/-- The genesis block with one field mutated in isolation: its timestamp
changed from `0` to `999`, its stored hash (and everything downstream)
left as it was. -/
def cexMutatedGenesis : Block String := ⟨⟨1, 999, [], 100, "1"⟩, (genesisBlock 0).hash⟩

/-- `cexState` after the in-place mutation of its genesis block. -/
def cexTampered : SCState :=
  ⟨cexState.chain.set 0 cexMutatedGenesis, cexState.pending_transactions,
    cexState.product_counter⟩

/-- A committed transaction for product 1, used to exhibit what the
history projection keeps and drops. -/
def c5tx : Tx := ⟨1, "Farmer", "Maseru", "Harvested", 2, "B-7", "Truck", "fresh", "Wholesaler", 7⟩

/-- A one-commit state holding exactly the given transaction. -/
def c5state (t : Tx) : SCState := ⟨[⟨⟨2, 5, [t], 123, "p"⟩, "h"⟩], [], 0⟩

/-- An idealized digest domain for the tamper-detection analysis: a digest
either is an opaque seed or embeds a block content whole, so distinct
contents have distinct digests — the collision-freeness idealization under
which SHA-256 tamper detection is stated. -/
inductive IHash where
  | root : IHash
  | node (index : Nat) (timestamp : Nat) (transactions : List Tx)
      (proof : Int) (previous_hash : IHash) : IHash
deriving DecidableEq

/-- The idealized (injective) digest of a block content. -/
def iHashOf (c : BContent IHash) : IHash :=
  IHash.node c.index c.timestamp c.transactions c.proof c.previous_hash

/-- Recomputing a full block's digest in the idealized model (the `pop`
of the stored hash is the projection to `content`). -/
def iHashBlock (b : Block IHash) : IHash := iHashOf b.content

/-- Genesis content of the idealized witness chain. -/
def iContent1 : BContent IHash := ⟨1, 0, [], 100, IHash.root⟩

/-- Genesis block of the idealized witness chain. -/
def iBlock1 : Block IHash := ⟨iContent1, iHashOf iContent1⟩

/-- Second content of the idealized witness chain, linked to the genesis
block's stored digest. -/
def iContent2 : BContent IHash := ⟨2, 1, [], 123, iBlock1.hash⟩

/-- Second block of the idealized witness chain. -/
def iBlock2 : Block IHash := ⟨iContent2, iHashOf iContent2⟩

/-- The idealized two-block witness chain. -/
def iChain : List (Block IHash) := [iBlock1, iBlock2]

/-- `iBlock2` with one field mutated in isolation: its timestamp changed,
its stored digest kept. -/
def iBlock2Mut : Block IHash := ⟨⟨2, 99, [], 123, iBlock1.hash⟩, iBlock2.hash⟩

/-! ## Theorems -/

/-- Known-answer test: the FIPS 180 `"abc"` vector, checked by evaluation. -/
theorem sha256Text_abc :
    sha256Text "abc" =
      "ba7816bf8f01cfea414140de5dae2223b00361a396177a9cb410ff61f20015ad" := by
  decide

/-- The `pop("hash")` in the hasher makes hashing a full block and hashing
its content agree: the stored `"hash"` entry never reaches the digest. -/
theorem hashBlock_eq_hashContent (b : Block String) :
    hashBlock b = hashContent b.content := rfl

/-- A fold that conditionally appends a projection equals the accumulator
followed by the filtered, mapped list — the shape of both scan loops. -/
theorem foldl_filter_map_eq {α β : Type} (p : α → Bool) (f : α → β)
    (l : List α) : ∀ acc : List β,
    l.foldl (fun acc a => if p a then acc ++ [f a] else acc) acc =
      acc ++ (l.filter p).map f := by
  induction l with
  | nil => intro acc; simp
  | cons x l ih =>
    intro acc
    simp only [List.foldl_cons, List.filter_cons]
    cases h : p x <;> simp [h, ih, List.append_assoc]

/-- A fold that unconditionally appends a projection equals the
accumulator followed by the mapped list. -/
theorem foldl_append_map_eq {α β : Type} (f : α → β) (l : List α) :
    ∀ acc : List β,
    l.foldl (fun acc a => acc ++ [f a]) acc = acc ++ l.map f := by
  induction l with
  | nil => intro acc; simp
  | cons x l ih => intro acc; simp [ih, List.append_assoc]

/-- A fold whose step appends `g a` equals the accumulator followed by the
flattened per-element lists — the outer loop of both scans. -/
theorem foldl_flatMap_eq {α β : Type} (g : α → List β)
    (step : List β → α → List β) (hstep : ∀ acc a, step acc a = acc ++ g a)
    (l : List α) : ∀ acc : List β,
    l.foldl step acc = acc ++ l.flatMap g := by
  induction l with
  | nil => intro acc; simp
  | cons x l ih =>
    intro acc
    rw [List.foldl_cons, hstep, ih, List.flatMap_cons, List.append_assoc]

/-- `track_product`'s accumulator loop, as a filtered and projected scan
in chain order. -/
theorem track_product_eq_flatMap (s : SCState) (pid : Nat) :
    track_product s pid =
      s.chain.flatMap (fun b =>
        (b.content.transactions.filter (fun tx => tx.product_id == pid)).map
          (mkHistoryEntry b.content.index)) := by
  unfold track_product
  rw [foldl_flatMap_eq
        (fun b => (b.content.transactions.filter (fun tx => tx.product_id == pid)).map
          (mkHistoryEntry b.content.index))
        _ (fun acc b => foldl_filter_map_eq _ _ _ acc)]
  simp

/-- `all_transactions_summary`'s accumulator loop, as an unfiltered
projected scan in chain order. -/
theorem all_transactions_summary_eq_flatMap (s : SCState) :
    all_transactions_summary s =
      s.chain.flatMap (fun b =>
        b.content.transactions.map (mkSummaryRow b.content.index)) := by
  unfold all_transactions_summary
  rw [foldl_flatMap_eq
        (fun b => b.content.transactions.map (mkSummaryRow b.content.index))
        _ (fun acc b => foldl_append_map_eq _ _ acc)]
  simp

/-- Claim C3: `new_block` drains the pool atomically — the created block's
transaction list is exactly the pool contents from immediately before the
call, in order (value copies), the pool is empty immediately after, the
block is what got appended, and a commit on an empty pool yields a block
with no transactions. -/
theorem claim_C3 :
    (∀ (s : SCState) (proof : Int) (ts : Nat) (prev : Option String),
        (new_block s proof ts prev).1.content.transactions = s.pending_transactions ∧
        (new_block s proof ts prev).2.pending_transactions = [] ∧
        (new_block s proof ts prev).2.chain = s.chain ++ [(new_block s proof ts prev).1]) ∧
    (∀ (chain : List (Block String)) (pc : Nat) (proof : Int) (ts : Nat)
        (prev : Option String),
        (new_block ⟨chain, [], pc⟩ proof ts prev).1.content.transactions = []) := by
  constructor
  · intro s proof ts prev
    refine ⟨?_, rfl, rfl⟩
    simp [new_block]
  · intro chain pc proof ts prev
    rfl

/-- Claim C7: a freshly constructed ledger is the single genesis block —
index 1, no transactions, `previous_hash` the sentinel `"1"`, stored hash
the digest of its other fields — and it validates. -/
theorem claim_C7 (ts0 : Nat) :
    (initState ts0).chain = [genesisBlock ts0] ∧
    (genesisBlock ts0).content.index = 1 ∧
    (genesisBlock ts0).content.transactions = [] ∧
    (genesisBlock ts0).content.previous_hash = "1" ∧
    (genesisBlock ts0).hash = hashContent (genesisBlock ts0).content ∧
    is_chain_valid (initState ts0) = true :=
  ⟨rfl, rfl, rfl, rfl, rfl, rfl⟩

/-- Claim C8: validation is read-only and idempotent — the caller's state
after a call is the state before it (chain, every block, pool), and a
repeated call returns the same boolean. -/
theorem claim_C8 (s : SCState) :
    (is_chain_valid_call s).2 = s ∧
    (is_chain_valid_call s).1 = is_chain_valid s ∧
    (is_chain_valid_call ((is_chain_valid_call s).2)).1 = (is_chain_valid_call s).1 ∧
    (is_chain_valid_call s).2.chain = s.chain ∧
    (is_chain_valid_call s).2.chain.length = s.chain.length ∧
    (is_chain_valid_call s).2.pending_transactions = s.pending_transactions :=
  ⟨rfl, rfl, rfl, rfl, rfl, rfl⟩

/-- Claim C9: the filtered history view and the unfiltered summary view
are the same scan — filtering the summary rows by `Product ID` and
renaming columns yields exactly `track_product`'s entries, same events,
same order, same block indices. -/
theorem claim_C9 (s : SCState) (pid : Nat) :
    track_product s pid =
      ((all_transactions_summary s).filter (fun r => r.productId == pid)).map
        rowToEntry := by
  rw [track_product_eq_flatMap, all_transactions_summary_eq_flatMap]
  obtain ⟨ch, pend, pc⟩ := s
  induction ch with
  | nil => simp
  | cons b l ih =>
    simp only [List.flatMap_cons, List.filter_append, List.map_append]
    rw [← ih]
    congr 1
    rw [List.filter_map, List.map_map]
    rfl

/-- Claim C10: `add_transaction` returns its `product_id`, appends exactly
the one event built from its arguments to the end of the pool, and leaves
the chain and the product counter untouched. -/
theorem claim_C10 (s : SCState) (pid : Nat) (actor location action : String)
    (amount : Nat) (batch transport notes receiver : String) (ts : Nat) :
    (add_transaction s pid actor location action amount batch transport notes receiver ts).1 = pid ∧
    (add_transaction s pid actor location action amount batch transport notes receiver ts).2.pending_transactions =
      s.pending_transactions ++
        [⟨pid, actor, location, action, amount, batch, transport, notes, receiver, ts⟩] ∧
    (add_transaction s pid actor location action amount batch transport notes receiver ts).2.chain = s.chain ∧
    (add_transaction s pid actor location action amount batch transport notes receiver ts).2.product_counter =
      s.product_counter :=
  ⟨rfl, rfl, rfl, rfl⟩

/-- The validation loop, as the pairwise condition it checks: every
adjacent pair is hash-linked and the later block's stored hash matches the
recomputed digest. -/
theorem chainOkWith_iff {H : Type} [DecidableEq H] (g : Block H → H) :
    ∀ l : List (Block H), chainOkWith g l = true ↔
      List.Chain' (fun p c => c.content.previous_hash = p.hash ∧ c.hash = g c) l
  | [] => by simp [chainOkWith]
  | [b] => by simp [chainOkWith]
  | p :: c :: rest => by
    by_cases h1 : c.content.previous_hash = p.hash
    · by_cases h2 : c.hash = g c
      · simp [chainOkWith, h1, h2, List.chain'_cons, chainOkWith_iff g (c :: rest)]
      · simp [chainOkWith, h1, h2, List.chain'_cons]
    · simp [chainOkWith, h1, List.chain'_cons]

/-- Committing preserves the ledger invariant: the new block's stored hash
is the digest of its content by construction, and its `previous_hash` —
the recomputed digest of the old last block — equals that block's stored
hash because the invariant held before. -/
theorem new_block_chainInv (s : SCState) (h : ChainInv s.chain)
    (proof : Int) (ts : Nat) :
    ChainInv (new_block s proof ts none).2.chain := by
  obtain ⟨hhash, hlink⟩ := h
  constructor
  · intro b hb
    simp only [new_block] at hb
    rcases List.mem_append.mp hb with hb | hb
    · exact hhash b hb
    · simp only [List.mem_singleton] at hb
      subst hb
      rfl
  · show List.Chain' _ (s.chain ++ [_])
    rw [List.chain'_append]
    refine ⟨hlink, List.chain'_singleton _, ?_⟩
    intro x hx y hy
    simp only [List.head?_cons, Option.mem_def, Option.some.injEq] at hy
    subst hy
    show prevHashArg s none = x.hash
    simp only [Option.mem_def] at hx
    have hmem := List.mem_of_getLast?_eq_some hx
    simp [prevHashArg, lastHashD, hx, hashBlock_eq_hashContent, (hhash x hmem).symm]

/-- Every state the caller can reach — construction, then any sequence of
`add_transaction` and default-`previous_hash` `new_block` calls —
satisfies the ledger invariant. -/
theorem runOps_chainInv (s : SCState) (h : ChainInv s.chain)
    (ops : List LedgerOp) : ChainInv (runOps s ops).chain := by
  induction ops generalizing s with
  | nil => exact h
  | cons op ops ih =>
    show ChainInv (runOps (stepOp s op) ops).chain
    apply ih
    cases op with
    | addTx pid a l act am b tr n r ts => exact h
    | commit proof ts => exact new_block_chainInv s h proof ts

/-- The freshly constructed ledger satisfies the invariant. -/
theorem initState_chainInv (ts0 : Nat) : ChainInv (initState ts0).chain := by
  constructor
  · intro b hb
    simp only [initState, new_block, List.nil_append, List.mem_singleton] at hb
    subst hb
    rfl
  · exact List.chain'_singleton _

/-- Chain growth: each call grows the chain by one block per commit and
not otherwise. -/
theorem runOps_chain_length (s : SCState) (ops : List LedgerOp) :
    (runOps s ops).chain.length = s.chain.length + countCommits ops := by
  induction ops generalizing s with
  | nil => simp [runOps, countCommits]
  | cons op ops ih =>
    show (runOps (stepOp s op) ops).chain.length = _
    rw [ih]
    simp only [countCommits, List.countP_cons]
    cases op with
    | addTx pid a l act am b tr n r ts => simp [stepOp, add_transaction, countCommits]
    | commit proof ts =>
      simp [stepOp, new_block, countCommits]
      omega

/-- Claim C1: from construction through any sequence of `add_transaction`
and (default-`previous_hash`) `new_block` calls, the chain after `N`
commits has `N + 1` blocks; for every position `i > 1` (1-based; `i ≥ 1`
0-based) the block's `previous_hash` is the Hasher digest of its
predecessor and its stored hash is the Hasher digest of itself; and
`is_chain_valid` returns true on every such state. -/
theorem claim_C1 (ts0 : Nat) (ops : List LedgerOp) :
    (runOps (initState ts0) ops).chain.length = countCommits ops + 1 ∧
    (∀ i, 0 < i → (hi : i < (runOps (initState ts0) ops).chain.length) →
      ((runOps (initState ts0) ops).chain.get ⟨i, hi⟩).content.previous_hash =
          hashBlock ((runOps (initState ts0) ops).chain.get ⟨i - 1, by omega⟩) ∧
        ((runOps (initState ts0) ops).chain.get ⟨i, hi⟩).hash =
          hashBlock ((runOps (initState ts0) ops).chain.get ⟨i, hi⟩)) ∧
    is_chain_valid (runOps (initState ts0) ops) = true := by
  obtain ⟨hhash, hlink⟩ := runOps_chainInv _ (initState_chainInv ts0) ops
  refine ⟨?_, ?_, ?_⟩
  · rw [runOps_chain_length]
    have : (initState ts0).chain.length = 1 := rfl
    omega
  · intro i hpos hi
    obtain ⟨j, rfl⟩ : ∃ j, i = j + 1 := ⟨i - 1, by omega⟩
    have hpair := (List.chain'_iff_get.mp hlink) j (by omega)
    constructor
    · rw [hpair]
      have hmem := List.get_mem (runOps (initState ts0) ops).chain (j + 1 - 1) (by omega)
      rw [hashBlock_eq_hashContent]
      have : (⟨j, by omega⟩ : Fin (runOps (initState ts0) ops).chain.length) =
          ⟨j + 1 - 1, by omega⟩ := by
        congr 1
      rw [this] at hpair ⊢
      exact (hhash _ hmem)
    · have hmem := List.get_mem (runOps (initState ts0) ops).chain (j + 1) hi
      rw [hashBlock_eq_hashContent]
      exact hhash _ hmem
  · rw [is_chain_valid, chainOkWith_iff]
    rw [List.chain'_iff_get]
    intro i h
    refine ⟨(List.chain'_iff_get.mp hlink) i h, ?_⟩
    have hmem := List.get_mem (runOps (initState ts0) ops).chain (i + 1) (by omega)
    rw [hashBlock_eq_hashContent]
    exact hhash _ hmem

/-- Witness for C1 at a concrete run: one commit after construction. -/
theorem claim_C1_witness :
    (runOps (initState 0) [LedgerOp.commit 123 1]).chain.length =
      countCommits [LedgerOp.commit 123 1] + 1 ∧
    (((runOps (initState 0) [LedgerOp.commit 123 1]).chain.get ⟨1, by decide⟩).content.previous_hash =
        hashBlock ((runOps (initState 0) [LedgerOp.commit 123 1]).chain.get ⟨0, by decide⟩) ∧
      ((runOps (initState 0) [LedgerOp.commit 123 1]).chain.get ⟨1, by decide⟩).hash =
        hashBlock ((runOps (initState 0) [LedgerOp.commit 123 1]).chain.get ⟨1, by decide⟩)) ∧
    is_chain_valid (runOps (initState 0) [LedgerOp.commit 123 1]) = true :=
  ⟨(claim_C1 0 [LedgerOp.commit 123 1]).1,
   (claim_C1 0 [LedgerOp.commit 123 1]).2.1 1 (by decide) (by decide),
   (claim_C1 0 [LedgerOp.commit 123 1]).2.2⟩

/-- Claim C6: on any reachable (hence untampered) chain, a `new_block`
call without an explicit `previous_hash` links to the stored hash of the
block that was last at the time of the call — the recomputed digest it
actually uses coincides with the stored hash. -/
theorem claim_C6 (ts0 : Nat) (ops : List LedgerOp) (proof : Int) (ts : Nat)
    (lb : Block String)
    (hlast : (runOps (initState ts0) ops).chain.getLast? = some lb) :
    (new_block (runOps (initState ts0) ops) proof ts none).1.content.previous_hash =
      lb.hash := by
  obtain ⟨hhash, _⟩ := runOps_chainInv _ (initState_chainInv ts0) ops
  have hmem := List.mem_of_getLast?_eq_some hlast
  show prevHashArg _ none = lb.hash
  simp [prevHashArg, lastHashD, hlast, hashBlock_eq_hashContent, (hhash lb hmem).symm]

/-- Witness for C6 on the freshly constructed ledger: the first real
commit links to the genesis block's stored hash. -/
theorem claim_C6_witness :
    (new_block (runOps (initState 0) []) 123 1 none).1.content.previous_hash =
      (genesisBlock 0).hash :=
  claim_C6 0 [] 123 1 (genesisBlock 0) rfl

/-- Claim C2, counterexample to the claim as stated: on a valid two-block
chain built by the program itself, mutating a single field of the genesis
block in isolation — its timestamp, with every other field of every block
bit-identical — leaves `is_chain_valid` returning `true`, because the
validation loop starts at index 1 and never recomputes the genesis
block's own hash, and linkage is compared against the genesis block's
*stored* hash only. -/
theorem claim_C2_counterexample :
    is_chain_valid cexState = true ∧
    cexTampered.chain = cexState.chain.set 0 cexMutatedGenesis ∧
    (cexState.chain.getD 0 cexMutatedGenesis).content.index =
      cexMutatedGenesis.content.index ∧
    (cexState.chain.getD 0 cexMutatedGenesis).content.transactions =
      cexMutatedGenesis.content.transactions ∧
    (cexState.chain.getD 0 cexMutatedGenesis).content.proof =
      cexMutatedGenesis.content.proof ∧
    (cexState.chain.getD 0 cexMutatedGenesis).content.previous_hash =
      cexMutatedGenesis.content.previous_hash ∧
    (cexState.chain.getD 0 cexMutatedGenesis).hash = cexMutatedGenesis.hash ∧
    (cexState.chain.getD 0 cexMutatedGenesis).content.timestamp ≠
      cexMutatedGenesis.content.timestamp ∧
    is_chain_valid cexTampered = true := by
  refine ⟨by decide, rfl, rfl, rfl, rfl, rfl, rfl, by decide, by decide⟩

/-- Claim C2, amended: over any digest that is an injective function of a
block's non-hash fields (the collision-freeness idealization of SHA-256),
mutating a single field of any *non-genesis* block of a valid chain in
isolation — either its content changes and its stored hash is kept, or
its stored hash changes and its content is kept — makes the validation
loop return `false`. (The genesis block is excluded: the counterexample
shows its content fields are never rechecked.) -/
theorem claim_C2_amended {H : Type} [DecidableEq H] (g : Block H → H)
    (f : BContent H → H) (hg : ∀ b, g b = f b.content)
    (hf : Function.Injective f) (chain : List (Block H))
    (hvalid : chainOkWith g chain = true) (i : Nat) (h0 : 0 < i)
    (hi : i < chain.length) (b' : Block H)
    (hmut : (b'.content ≠ (chain.get ⟨i, hi⟩).content ∧
              b'.hash = (chain.get ⟨i, hi⟩).hash) ∨
            (b'.content = (chain.get ⟨i, hi⟩).content ∧
              b'.hash ≠ (chain.get ⟨i, hi⟩).hash)) :
    chainOkWith g (chain.set i b') = false := by
  rw [Bool.eq_false_iff]
  intro hok
  obtain ⟨j, rfl⟩ : ∃ j, i = j + 1 := ⟨i - 1, by omega⟩
  have horig := (List.chain'_iff_get.mp ((chainOkWith_iff g chain).mp hvalid)) j (by omega)
  have hnew := (List.chain'_iff_get.mp ((chainOkWith_iff g _).mp hok)) j
    (by rw [List.length_set]; omega)
  simp only [List.get_eq_getElem, List.getElem_set_self,
    List.getElem_set_ne (by omega : j + 1 ≠ j)] at hnew
  simp only [List.get_eq_getElem] at horig hmut
  have hone : b'.hash = f b'.content := by rw [← hg]; exact hnew.2
  have htwo : (chain[j + 1]).hash = f (chain[j + 1]).content := by
    rw [← hg]; exact horig.2
  rcases hmut with ⟨hc, hh⟩ | ⟨hc, hh⟩
  · exact hc (hf (hone.symm.trans (hh.trans htwo)))
  · exact hh (by rw [hone, hc, ← htwo])

/-- Witness for the amended C2: in the idealized-digest model, a concrete
valid two-block chain whose second block gets its timestamp mutated in
isolation fails validation. -/
theorem claim_C2_amended_witness :
    chainOkWith iHashBlock iChain = true ∧
    iBlock2Mut.content ≠ iBlock2.content ∧
    iBlock2Mut.hash = iBlock2.hash ∧
    chainOkWith iHashBlock (iChain.set 1 iBlock2Mut) = false := by
  refine ⟨by decide, by decide, rfl, ?_⟩
  exact claim_C2_amended iHashBlock iHashOf (fun _ => rfl)
    (fun c1 c2 h => by
      cases c1
      cases c2
      simp only [iHashOf] at h
      injection h with h1 h2 h3 h4 h5
      simp_all)
    iChain (by decide) 1 (by decide) (by decide) iBlock2Mut
    (Or.inl ⟨by decide, rfl⟩)

/-- Characters with equal code points are equal. -/
theorem char_toNat_inj {a b : Char} (h : a.toNat = b.toNat) : a = b := by
  rw [← Char.ofNat_toNat a, h, Char.ofNat_toNat]

/-- Strings with equal character data are equal. -/
theorem string_data_inj {s t : String} (h : s.data = t.data) : s = t := by
  cases s
  cases t
  exact congrArg String.mk h

/-- Python string `<` is asymmetric. -/
theorem charListLt_asymm : ∀ a b : List Char,
    charListLt a b = true → charListLt b a = true → False
  | [], [] => by simp [charListLt]
  | [], _ :: _ => by intro _ h2; simp [charListLt] at h2
  | _ :: _, [] => by intro h1 _; simp [charListLt] at h1
  | a :: as, b :: bs => by
    intro h1 h2
    simp only [charListLt] at h1 h2
    rcases Nat.lt_trichotomy a.toNat b.toNat with h | h | h
    · rw [if_neg (by omega), if_pos h] at h2
      simp at h2
    · rw [if_neg (by omega), if_neg (by omega)] at h1 h2
      exact charListLt_asymm as bs h1 h2
    · rw [if_neg (by omega), if_pos h] at h1
      simp at h1

/-- Python string `<` is transitive. -/
theorem charListLt_trans : ∀ a b c : List Char,
    charListLt a b = true → charListLt b c = true → charListLt a c = true
  | [], [], _ => by simp [charListLt]
  | [], _ :: _, [] => by intro _ h2; simp [charListLt] at h2
  | [], _ :: _, _ :: _ => by intro _ _; rfl
  | _ :: _, [], _ => by intro h1 _; simp [charListLt] at h1
  | _ :: _, _ :: _, [] => by intro _ h2; simp [charListLt] at h2
  | a :: as, b :: bs, c :: cs => by
    intro h1 h2
    simp only [charListLt] at h1 h2 ⊢
    rcases Nat.lt_trichotomy a.toNat b.toNat with hab | hab | hab <;>
      rcases Nat.lt_trichotomy b.toNat c.toNat with hbc | hbc | hbc
    · rw [if_pos (by omega)]
    · rw [if_pos (by omega)]
    · rw [if_neg (by omega), if_pos hbc] at h2
      simp at h2
    · rw [if_pos (by omega)]
    · rw [if_neg (by omega), if_neg (by omega)] at h1
      rw [if_neg (by omega), if_neg (by omega)] at h2
      rw [if_neg (by omega), if_neg (by omega)]
      exact charListLt_trans as bs cs h1 h2
    · rw [if_neg (by omega), if_pos hbc] at h2
      simp at h2
    · rw [if_neg (by omega), if_pos hab] at h1
      simp at h1
    · rw [if_neg (by omega), if_pos hab] at h1
      simp at h1
    · rw [if_neg (by omega), if_pos hab] at h1
      simp at h1

/-- Python string comparison is trichotomous: two lists neither of which
is smaller are equal. -/
theorem charListLt_eq_of_not : ∀ a b : List Char,
    charListLt a b = false → charListLt b a = false → a = b
  | [], [] => fun _ _ => rfl
  | [], _ :: _ => by intro h _; simp [charListLt] at h
  | _ :: _, [] => by intro _ h; simp [charListLt] at h
  | a :: as, b :: bs => by
    intro h1 h2
    simp only [charListLt] at h1 h2
    rcases Nat.lt_trichotomy a.toNat b.toNat with h | h | h
    · rw [if_pos h] at h1
      simp at h1
    · rw [if_neg (by omega), if_neg (by omega)] at h1
      rw [if_neg (by omega), if_neg (by omega)] at h2
      rw [charListLt_eq_of_not as bs h1 h2, char_toNat_inj h]
    · rw [if_pos h] at h2
      simp at h2

/-- The key order used by `sortByKey` is total. -/
instance keyLeIsTotal {α : Type} :
    IsTotal (String × α) (fun p q => strLe p.1 q.1 = true) := by
  constructor
  intro p q
  cases hpq : charListLt q.1.data p.1.data with
  | false => left; simp [strLe, hpq]
  | true =>
    right
    cases hqp : charListLt p.1.data q.1.data with
    | false => simp [strLe, hqp]
    | true => exact (charListLt_asymm _ _ hqp hpq).elim

/-- The key order used by `sortByKey` is transitive. -/
instance keyLeIsTrans {α : Type} :
    IsTrans (String × α) (fun p q => strLe p.1 q.1 = true) := by
  constructor
  intro p q r h1 h2
  simp only [strLe, Bool.not_eq_true'] at h1 h2 ⊢
  cases hrp : charListLt r.1.data p.1.data with
  | false => rfl
  | true =>
    cases hqr : charListLt q.1.data r.1.data with
    | true =>
      have h := charListLt_trans _ _ _ hqr hrp
      rw [h] at h1
      exact h1
    | false =>
      have heq := charListLt_eq_of_not _ _ hqr h2
      rw [← heq] at hrp
      rw [hrp] at h1
      exact h1

/-- `sortByKey` permutes its input. -/
theorem sortByKey_perm {α : Type} (d : List (String × α)) :
    (sortByKey d).Perm d :=
  List.perm_insertionSort _ d

/-- `sortByKey`'s output is sorted by key. -/
theorem sortByKey_pairwise {α : Type} (d : List (String × α)) :
    List.Pairwise (fun p q : String × α => strLe p.1 q.1 = true) (sortByKey d) :=
  List.sorted_insertionSort _ d

/-- Two strictly key-sorted permutations of the same entries coincide. -/
theorem sorted_lt_perm_eq {α : Type} :
    ∀ (l1 l2 : List (String × α)), l1.Perm l2 →
      List.Pairwise (fun p q : String × α => charListLt p.1.data q.1.data = true) l1 →
      List.Pairwise (fun p q : String × α => charListLt p.1.data q.1.data = true) l2 →
      l1 = l2
  | [], l2, hp, _, _ => hp.nil_eq
  | a :: t1, l2, hp, hs1, hs2 => by
    have hmem : a ∈ l2 := hp.mem_iff.mp (List.mem_cons_self a t1)
    cases l2 with
    | nil => simp at hmem
    | cons b t2 =>
      have hab : a = b := by
        by_contra hne
        have ha2 : a ∈ t2 := by
          rcases List.mem_cons.mp hmem with h | h
          · exact absurd h hne
          · exact h
        have hba := (List.pairwise_cons.mp hs2).1 a ha2
        have hb1 : b ∈ t1 := by
          rcases List.mem_cons.mp (hp.mem_iff.mpr (List.mem_cons_self b t2)) with h | h
          · exact absurd h.symm hne
          · exact h
        have hab' := (List.pairwise_cons.mp hs1).1 b hb1
        exact charListLt_asymm _ _ hab' hba
      subst hab
      rw [sorted_lt_perm_eq t1 t2 hp.cons_inv (List.pairwise_cons.mp hs1).2
        (List.pairwise_cons.mp hs2).2]

/-- On entries with pairwise-distinct keys, key-sortedness is strict. -/
theorem pairwise_keyLt {α : Type} {l : List (String × α)}
    (hs : List.Pairwise (fun p q : String × α => strLe p.1 q.1 = true) l)
    (hnd : (l.map Prod.fst).Nodup) :
    List.Pairwise (fun p q : String × α => charListLt p.1.data q.1.data = true) l := by
  have hne : List.Pairwise (fun p q : String × α => p.1 ≠ q.1) l :=
    List.pairwise_map.mp hnd
  refine (hs.and hne).imp ?_
  rintro p q ⟨hle, hne'⟩
  cases hlt : charListLt p.1.data q.1.data with
  | true => rfl
  | false =>
    have hqp : charListLt q.1.data p.1.data = false := by
      cases hqp : charListLt q.1.data p.1.data with
      | false => rfl
      | true => rw [strLe, hqp] at hle; exact Bool.noConfusion hle
    exact absurd (string_data_inj (charListLt_eq_of_not _ _ hlt hqp)) hne'

/-- On dictionaries (pairwise-distinct keys), the key-sorted order is a
function of the entry multiset alone: permuted input, same sorted output. -/
theorem sortByKey_eq_of_perm {α : Type} {d1 d2 : List (String × α)}
    (hnd : (d1.map Prod.fst).Nodup) (hp : d1.Perm d2) :
    sortByKey d1 = sortByKey d2 := by
  have hnd1 : ((sortByKey d1).map Prod.fst).Nodup :=
    ((sortByKey_perm d1).map Prod.fst).symm.nodup hnd
  have hnd2 : ((sortByKey d2).map Prod.fst).Nodup :=
    ((sortByKey_perm d2).map Prod.fst).symm.nodup ((hp.map Prod.fst).nodup hnd)
  exact sorted_lt_perm_eq _ _
    ((sortByKey_perm d1).trans (hp.trans (sortByKey_perm d2).symm))
    (pairwise_keyLt (sortByKey_pairwise d1) hnd1)
    (pairwise_keyLt (sortByKey_pairwise d2) hnd2)

/-- A word renders as exactly 8 characters. -/
theorem wordHex_length (w : Nat) : (wordHex w).length = 8 := rfl

/-- A digest renders as exactly 64 characters. -/
theorem sha256HexBytes_length (msg : List Nat) :
    (sha256HexBytes msg).length = 64 := by
  simp [sha256HexBytes, String.length_append, wordHex_length]

/-- Every output of the hex-digit table is a hex character. -/
theorem isHexDigit_hexDigit (n : Nat) : IsHexDigit (hexDigit n) := by
  match n with
  | 0 | 1 | 2 | 3 | 4 | 5 | 6 | 7 | 8 | 9 | 10 | 11 | 12 | 13 | 14 => decide
  | m + 15 =>
    show IsHexDigit 'f'
    decide

/-- Every character of a rendered word is a hex character. -/
theorem isHexDigit_of_mem_wordHex {w : Nat} {c : Char}
    (hc : c ∈ (wordHex w).data) : IsHexDigit c := by
  have hc' : c ∈ [hexDigit (w / 268435456 % 16), hexDigit (w / 16777216 % 16),
      hexDigit (w / 1048576 % 16), hexDigit (w / 65536 % 16),
      hexDigit (w / 4096 % 16), hexDigit (w / 256 % 16),
      hexDigit (w / 16 % 16), hexDigit (w % 16)] := hc
  simp only [List.mem_cons, List.not_mem_nil, or_false] at hc'
  rcases hc' with rfl | rfl | rfl | rfl | rfl | rfl | rfl | rfl <;>
    exact isHexDigit_hexDigit _

/-- Every character of a digest is a hex character. -/
theorem isHexDigit_of_mem_sha256HexBytes {msg : List Nat} {c : Char}
    (hc : c ∈ (sha256HexBytes msg).data) : IsHexDigit c := by
  simp only [sha256HexBytes, String.data_append, List.mem_append] at hc
  rcases hc with ((((((hc | hc) | hc) | hc) | hc) | hc) | hc) | hc <;>
    exact isHexDigit_of_mem_wordHex hc

/-- Appending a `"hash"` entry to a hash-free dictionary does not change
the digest: the hasher pops it before serializing. -/
theorem pyDictHash_append_hash (d : List (String × BVal)) (h : String)
    (hnh : ∀ k ∈ d.map Prod.fst, k ≠ "hash") :
    pyDictHash (d ++ [("hash", BVal.bstr h)]) = pyDictHash d := by
  unfold pyDictHash
  rw [List.filter_append]
  have h1 : List.filter (fun kv => kv.1 != "hash")
      [(("hash" : String), BVal.bstr h)] = [] := rfl
  have h2 : List.filter (fun kv => kv.1 != "hash") d = d := by
    apply List.filter_eq_self.mpr
    intro kv hkv
    simpa using hnh kv.1 (List.mem_map_of_mem Prod.fst hkv)
  rw [h1, h2, List.append_nil]

/-- Claim C4: the Hasher is a pure function of the non-hash fields — its
output is a fixed-length (64-character) lower-case hex string, it is
independent of the in-memory ordering of a dictionary's (distinct) keys
because serialization key-sorts, and setting the `"hash"` field to any
value gives the same digest as leaving it absent. -/
theorem claim_C4 :
    (∀ d : List (String × BVal),
        (pyDictHash d).length = 64 ∧ ∀ c ∈ (pyDictHash d).data, IsHexDigit c) ∧
    (∀ d1 d2 : List (String × BVal), (d1.map Prod.fst).Nodup → d1.Perm d2 →
        pyDictHash d1 = pyDictHash d2) ∧
    (∀ (d : List (String × BVal)) (h : String),
        (∀ k ∈ d.map Prod.fst, k ≠ "hash") →
        pyDictHash (d ++ [("hash", BVal.bstr h)]) = pyDictHash d) := by
  refine ⟨?_, ?_, pyDictHash_append_hash⟩
  · intro d
    exact ⟨sha256HexBytes_length _, fun c hc => isHexDigit_of_mem_sha256HexBytes hc⟩
  · intro d1 d2 hnd hp
    unfold pyDictHash renderObjWith
    rw [sortByKey_eq_of_perm
      (((List.filter_sublist d1).map Prod.fst).nodup hnd)
      (hp.filter (fun kv => kv.1 != "hash"))]

/-- Witness for C4 at concrete dictionaries: a two-key dictionary, its
key-swapped permutation, and a `"hash"`-free dictionary extended with a
`"hash"` entry. -/
theorem claim_C4_witness :
    (([("proof", BVal.bint 7), ("index", BVal.bnat 1)].map Prod.fst).Nodup ∧
      [("proof", BVal.bint 7), ("index", BVal.bnat 1)].Perm
        [("index", BVal.bnat 1), ("proof", BVal.bint 7)] ∧
      (∀ k ∈ [(("index", BVal.bnat 1) : String × BVal)].map Prod.fst, k ≠ "hash")) ∧
    (pyDictHash [("proof", BVal.bint 7), ("index", BVal.bnat 1)]).length = 64 ∧
    pyDictHash [("proof", BVal.bint 7), ("index", BVal.bnat 1)] =
      pyDictHash [("index", BVal.bnat 1), ("proof", BVal.bint 7)] ∧
    pyDictHash ([("index", BVal.bnat 1)] ++ [("hash", BVal.bstr "x")]) =
      pyDictHash [("index", BVal.bnat 1)] :=
  ⟨⟨by decide, by decide, by decide⟩,
   (claim_C4.1 _).1,
   claim_C4.2.1 _ _ (by decide) (by decide),
   claim_C4.2.2 _ "x" (by decide)⟩

/-- Claim C5, counterexample to the "record carrying ... all event
fields" part as stated: the history projection (app.py:81–92) drops
`product_id`. Two committed events that differ only in `product_id`
produce byte-identical, non-empty history entry lists for their
respective queries — the entries do not carry that event field. -/
theorem claim_C5_counterexample :
    c5tx ≠ { c5tx with product_id := 2 } ∧
    track_product (c5state c5tx) 1 ≠ [] ∧
    track_product (c5state c5tx) 1 =
      track_product (c5state { c5tx with product_id := 2 }) 2 :=
  ⟨by decide, by decide, by decide⟩

/-- Claim C5, amended: `track_product` returns exactly the events whose
`product_id` equals the queried id, scanning blocks in chain order and
events in insertion order, each projected into a record carrying the
originating block index and every event field except `product_id` (the
query key); an id with no matching events — registered or not — yields
the empty sequence, never an error. -/
theorem claim_C5_amended :
    (∀ (s : SCState) (pid : Nat),
        track_product s pid =
          s.chain.flatMap (fun b =>
            (b.content.transactions.filter (fun tx => tx.product_id == pid)).map
              (mkHistoryEntry b.content.index))) ∧
    (∀ (s : SCState) (pid : Nat),
        (∀ b ∈ s.chain, ∀ tx ∈ b.content.transactions, tx.product_id ≠ pid) →
        track_product s pid = []) := by
  refine ⟨track_product_eq_flatMap, ?_⟩
  intro s pid h
  rw [track_product_eq_flatMap]
  rw [List.flatMap_eq_nil_iff]
  intro b hb
  rw [List.filter_eq_nil_iff.mpr, List.map_nil]
  intro tx htx
  simpa using h b hb tx htx

/-- Witness for the amended C5: a never-used product id yields the empty
sequence on a concrete one-event chain. -/
theorem claim_C5_witness :
    (∀ b ∈ (c5state c5tx).chain, ∀ tx ∈ b.content.transactions,
        tx.product_id ≠ 99) ∧
    track_product (c5state c5tx) 99 = [] :=
  ⟨by decide, claim_C5_amended.2 (c5state c5tx) 99 (by decide)⟩

end SupplyChain
